import Mathlib

/-!
Formal model of the adaptive logarithmic activation quantizer of
`src/autotrain/trainers/clm/__main__.py` (the `STEFunction_structured`
autograd function, the `activation_hook`, and the hook-registration loop).

Modelling conventions.

Floating-point element values are idealised as exact values of the form
`s * 2^q` with `q : ℚ` (plus `0.0` and `NaN`): the whole pipeline — clamp,
`log2`, multiply by a power-of-two scale, round, divide, `pow(2, ·)` — maps
this set to itself, so every value arising in the algorithm is represented
exactly.  `Val.pos q` denotes the value `2^q`, `Val.neg q` denotes `-2^q`,
`Val.zero` denotes `0.0` and `Val.nanv` denotes IEEE NaN.  Clamping the
magnitude of a value into `[threshold_down, threshold_up] = [2^-16, 2^16]`
is, on exponents, clamping `q` into `[-16, 16]` (i.e. into
`[-threshold_mantissa, threshold_mantissa]`), since `2^x` is strictly
monotone.

Values in the log2 domain are represented by `LogV`: `LogV.fin q` is the
finite value `q`, `LogV.ninf` is `-inf` (= `log2 0.0`), `LogV.nan` is NaN
(= `log2` of a negative value).  Comparisons, subtraction of a constant,
`torch.round` (round half to even) and the NaN-propagating `torch.max`
reduction follow IEEE semantics on these representations.

Tensors are a rank (`len(shape)`) together with the row-major flattening of
the data; `torch.nonzero` enumerates indices in row-major order, so the
index bookkeeping of the source is reproduced on the flat list with
`nonzeroIdx` / `gather` / `scatter`.  `torch.where` is elementwise
selection, so a `where` over precomputed branch tensors is embedded as the
per-element conditional it denotes.
-/

/-! ### Quantization configuration constants (source lines 390-409) -/

/-- `num_bit_mantissa = 5  # for 8 bit repr.` -/
def num_bit_mantissa : ℕ := 5

/-- `threshold_mantissa = 2**(num_bit_mantissa-1)` -/
def threshold_mantissa : ℕ := 2 ^ (num_bit_mantissa - 1)

/-- `threshold_up = float(2**threshold_mantissa)` -/
def threshold_up : ℚ := 2 ^ threshold_mantissa

/-- `threshold_down = float(2**-(threshold_mantissa))` -/
def threshold_down : ℚ := (2 ^ threshold_mantissa)⁻¹

/-- `num_frac_low_prec = 2  # number of fractional bits for 8 bit repr.` -/
def num_frac_low_prec : ℕ := 2

/-- `num_frac_high_prec = num_frac_low_prec + 2` -/
def num_frac_high_prec : ℕ := num_frac_low_prec + 2

/-- `scale_low_prec = 2**(num_frac_low_prec)` -/
def scale_low_prec : ℚ := 2 ^ num_frac_low_prec

/-- `scale_high_prec = 2**(num_frac_high_prec)` -/
def scale_high_prec : ℚ := 2 ^ num_frac_high_prec

/-- `num_frac_highest_prec = num_frac_high_prec + 2  # for extreme outliers` -/
def num_frac_highest_prec : ℕ := num_frac_high_prec + 2

/-- `scale_highest_prec = 2**(num_frac_highest_prec)` -/
def scale_highest_prec : ℚ := 2 ^ num_frac_highest_prec

/-! ### Values and the log2 domain -/

/-- An idealised floating-point value: `0.0`, `2^q`, `-2^q`, or NaN. -/
inductive Val where
  | zero : Val
  | pos  : ℚ → Val
  | neg  : ℚ → Val
  | nanv : Val
deriving DecidableEq, Repr

/-- A value in the log2 domain: NaN, `-inf`, or a finite rational. -/
inductive LogV where
  | nan  : LogV
  | ninf : LogV
  | fin  : ℚ → LogV
deriving DecidableEq, Repr

/-- `torch.round`: round to nearest integer, ties to even. -/
def rnd (x : ℚ) : ℤ :=
  if x - Int.floor x < 1 / 2 then Int.floor x
  else if x - Int.floor x > 1 / 2 then Int.floor x + 1
  else if Int.floor x % 2 = 0 then Int.floor x else Int.floor x + 1

/-- `torch.abs`, elementwise. -/
def vabs : Val → Val
  | .zero => .zero
  | .pos q => .pos q
  | .neg q => .pos q
  | .nanv => .nanv

/-- Unary minus, elementwise. -/
def vneg : Val → Val
  | .zero => .zero
  | .pos q => .neg q
  | .neg q => .pos q
  | .nanv => .nanv

/-- `v > 0`, elementwise (false on NaN). -/
def vgtz : Val → Bool
  | .pos _ => true
  | _ => false

/-- `v < 0`, elementwise (false on NaN). -/
def vltz : Val → Bool
  | .neg _ => true
  | _ => false

/-- Exponent clamp: `torch.clamp(x, min=threshold_down, max=threshold_up)`
on a magnitude `2^q` is `2^(min 16 (max (-16) q))`; `torch.clamp` applies
the lower bound first. -/
def clampQ (q : ℚ) : ℚ :=
  min (threshold_mantissa : ℚ) (max (-(threshold_mantissa : ℚ)) q)

/-- `torch.clamp(·, min=threshold_down, max=threshold_up)` on the output of
`torch.abs`: `0.0` is raised to `threshold_down = 2^-16`, a (spurious)
negative input would also be raised to the lower bound, NaN propagates. -/
def vclampMag : Val → Val
  | .zero => .pos (-(threshold_mantissa : ℚ))
  | .pos q => .pos (clampQ q)
  | .neg _ => .pos (-(threshold_mantissa : ℚ))
  | .nanv => .nanv

/-- The clamp step
`torch.where(t<0, -torch.clamp(torch.abs(t),...), torch.clamp(torch.abs(t),...))`
(elementwise; both the tuple branch, line 450, and the single-tensor
branch, lines 436-437, perform exactly this). -/
def clampStep (v : Val) : Val :=
  if vltz v then vneg (vclampMag (vabs v)) else vclampMag (vabs v)

/-- `torch.log2`, elementwise: `log2 0 = -inf`, `log2` of a negative value
is NaN, NaN propagates. -/
def vlog2 : Val → LogV
  | .zero => .ninf
  | .pos q => .fin q
  | .neg _ => .nan
  | .nanv => .nan

/-- Subtraction of a finite constant in the log2 domain. -/
def lsub : LogV → ℚ → LogV
  | .fin m, c => .fin (m - c)
  | .ninf, _ => .ninf
  | .nan, _ => .nan

/-- IEEE `>` on the log2 domain: any comparison with NaN is false,
`-inf` is not greater than anything, a finite value is greater than
`-inf`. -/
def lgt : LogV → LogV → Bool
  | .nan, _ => false
  | _, .nan => false
  | .ninf, _ => false
  | .fin _, .ninf => true
  | .fin a, .fin b => decide (b < a)

/-- Binary max with IEEE NaN propagation (`torch.max` propagates NaN). -/
def lmax2 : LogV → LogV → LogV
  | .nan, _ => .nan
  | _, .nan => .nan
  | .ninf, b => b
  | a, .ninf => a
  | .fin a, .fin b => .fin (max a b)

/-- `torch.max` reduction over a tensor in the log2 domain. -/
def lmaxRed (l : List LogV) : LogV := l.foldl lmax2 .ninf

/-- `torch.round(L * scale) / scale` in the log2 domain:
`round(±inf) = ±inf` and `round(NaN) = NaN`. -/
def lround (s : ℚ) : LogV → LogV
  | .fin q => .fin ((rnd (q * s) : ℚ) / s)
  | .ninf => .ninf
  | .nan => .nan

/-- `torch.pow(2, ·)`: `2^(-inf) = 0.0`, `2^NaN = NaN`. -/
def lpow2 : LogV → Val
  | .fin q => .pos q
  | .ninf => .zero
  | .nan => .nanv

/-- `log_x = torch.where(v > 0, torch.log2(v), torch.log2(-v))`,
elementwise (source lines 445 and 457). -/
def logOfNode (v : Val) : LogV :=
  if vgtz v then vlog2 v else vlog2 (vneg v)

/-- The nested `torch.where` selecting the quantized exponent
(source lines 451 and 463; identical formula inlined in the tuple branch,
line 451 of the tuple case):
`where(log_x > max_val-5, where(log_x > max_val-3, round(log_x*64)/64,
round(log_x*16)/16), round(log_x*4)/4)`, elementwise. -/
def quant_exponent_of (L M : LogV) : LogV :=
  if lgt L (lsub M 5) then
    (if lgt L (lsub M 3) then lround scale_highest_prec L
     else lround scale_high_prec L)
  else lround scale_low_prec L

/-- `quantized_values = torch.where(non_zero_values > 0,
torch.pow(2, quant_exponent), -(torch.pow(2, quant_exponent)))`,
elementwise (source lines 452 and 464). -/
def quantizedOf (v : Val) (e : LogV) : Val :=
  if vgtz v then lpow2 e else vneg (lpow2 e)

/-! ### Tensors and the forward pass -/

/-- A tensor: its rank (`len(shape)`) and its data in row-major order. -/
structure Tensor where
  rank : ℕ
  data : List Val
deriving DecidableEq, Repr

/-- `output.nonzero()`: the (row-major, i.e. flat, in-order) indices of
the elements different from `0.0` (NaN compares unequal to zero, hence
counts as nonzero). -/
def nonzeroIdx (l : List Val) : List ℕ :=
  (List.range l.length).filter (fun i => l.getD i .zero ≠ .zero)

/-- `output[non_zero_indices]`: advanced-indexing gather. -/
def gather (l : List Val) (idx : List ℕ) : List Val :=
  idx.map (fun i => l.getD i .zero)

/-- `output[non_zero_indices] = quantized_values`: advanced-indexing
scatter, assigning positionally. -/
def scatter : List Val → List ℕ → List Val → List Val
  | l, _, [] => l
  | l, [], _ :: _ => l
  | l, i :: is, v :: vs => scatter (l.set i v) is vs

/-- The shared body of the 3-D and 2-D branches (source lines 440-453 and
454-467; they differ only in indexing arity, which the row-major
flattening absorbs): gather the nonzero values of the clamped tensor, and
if any exist, quantize them in the log2 domain with the per-element tier
scale chosen relative to `max_val`, scattering the results back. -/
def quantBody (output : List Val) : List Val :=
  let non_zero_indices := nonzeroIdx output
  let non_zero_values := gather output non_zero_indices
  if 0 < non_zero_values.length then
    let log_x := non_zero_values.map logOfNode
    let max_val := lmaxRed log_x
    let quant_exponent := log_x.map (fun L => quant_exponent_of L max_val)
    let quantized_values :=
      (non_zero_values.zip quant_exponent).map (fun p => quantizedOf p.1 p.2)
    scatter output non_zero_indices quantized_values
  else output

/-- `STEFunction_structured.forward` on a single tensor (source lines
433-471): clamp, then quantize if the rank is 3 or 2; otherwise print
`"Out of shape"` and return the clamped-but-unquantized tensor. -/
def forward_single (input : Tensor) : Tensor :=
  let output := input.data.map clampStep
  if input.rank = 3 then ⟨3, quantBody output⟩
  else if input.rank = 2 then ⟨2, quantBody output⟩
  else ⟨input.rank, output⟩

/-- One member of the tuple branch (source lines 449-452): clamp, then
`torch.where(t > 0, pow(2, Q(log2 t, max(log2 t))), torch.where(t < 0,
-pow(2, Q(log2 (-t), max(log2 (-t)))), t))` — note the maxima are taken
over `log2` of the WHOLE clamped tensor (negative entries contribute NaN,
which `torch.max` propagates), not over the nonzero magnitudes. -/
def forward_member (t : List Val) : List Val :=
  let c := t.map clampStep
  let maxP := lmaxRed (c.map vlog2)
  let maxN := lmaxRed (c.map (fun v => vlog2 (vneg v)))
  c.map (fun v =>
    if vgtz v then lpow2 (quant_exponent_of (vlog2 v) maxP)
    else if vltz v then vneg (lpow2 (quant_exponent_of (vlog2 (vneg v)) maxN))
    else v)

/-- `STEFunction_structured.forward` on a tuple of tensors (source lines
448-452): the per-member transform applied to each member, with no rank
dispatch. -/
def forward_tuple (input : List Tensor) : List Tensor :=
  input.map (fun t => ⟨t.rank, forward_member t.data⟩)

/-- `STEFunction_structured.backward` (source lines 473-477):
`grad_input = grad_output.clone(); return grad_input`.  The context
argument models `ctx`; the saved-tensor machinery is commented out in the
source, so nothing but `grad_output` is consulted. -/
def backward (_ctx : Option Tensor) (grad_output : Tensor) : Tensor :=
  grad_output

/-! ### Precision tiers (extraction of the nested where, for stating) -/

/-- The three precision tiers of the adaptive scheme. -/
inductive Tier where
  | Low : Tier
  | High : Tier
  | Highest : Tier
deriving DecidableEq, Repr

/-- The tier the nested `torch.where` of `quant_exponent_of` selects for
an element with log2-magnitude `L` when the tensor maximum is `M`. -/
def assignTier (L M : LogV) : Tier :=
  if lgt L (lsub M 5) then
    (if lgt L (lsub M 3) then .Highest else .High)
  else .Low

/-- The fractional-bit scale of each tier. -/
def tierScale : Tier → ℚ
  | .Low => scale_low_prec
  | .High => scale_high_prec
  | .Highest => scale_highest_prec

/-- The list of tiers assigned to the nonzero elements of a tensor,
mirroring the internal state of `forward_single` just before rounding. -/
def tiersOf (t : Tensor) : List Tier :=
  let output := t.data.map clampStep
  let log_x := (gather output (nonzeroIdx output)).map logOfNode
  log_x.map (fun L => assignTier L (lmaxRed log_x))

/-- The tier assigned to the element at flat index `i` of a tensor,
mirroring the internal state of `forward_single` just before rounding
(after the clamp every element is nonzero, so the maximum ranges over all
clamped elements). -/
def tierAt (t : Tensor) (i : ℕ) : Tier :=
  assignTier (logOfNode ((t.data.map clampStep).getD i .zero))
    (lmaxRed ((t.data.map clampStep).map logOfNode))

/-- `log2 |v|` when it is finite: the stored exponent of `±2^q`. -/
def logMag : Val → Option ℚ
  | .pos q => some q
  | .neg q => some q
  | _ => none

/-! ### Hook registration / module selector -/

/-- The kind of a module, as tested by the `isinstance` checks of the
registration loop (source lines 483-487): the container type, the two
excluded layer types, the excluded elementwise activation types, a plain
linear transform, or anything else. -/
inductive ModuleKind where
  | moduleList : ModuleKind
  | layerNorm : ModuleKind
  | dropout : ModuleKind
  | relu : ModuleKind
  | tanhAct : ModuleKind
  | gelu : ModuleKind
  | sigmoidAct : ModuleKind
  | softmaxAct : ModuleKind
  | leakyRelu : ModuleKind
  | prelu : ModuleKind
  | linear : ModuleKind
  | other : ModuleKind
deriving DecidableEq, Repr

/-- A named module of the computation graph: its qualified name (as a
character list), its kind, and its number of child modules. -/
structure NetModule where
  name : List Char
  kind : ModuleKind
  numChildren : ℕ
deriving DecidableEq, Repr

/-- `EXCLUDED_ACTIVATIONS = (nn.ReLU, nn.Tanh, nn.GELU, nn.Sigmoid,
nn.Softmax, nn.LeakyReLU, nn.PReLU)` (source line 482). -/
def EXCLUDED_ACTIVATIONS : List ModuleKind :=
  [.relu, .tanhAct, .gelu, .sigmoidAct, .softmaxAct, .leakyRelu, .prelu]

/-- Whether `pat` occurs at the start of `s`. -/
def startsWithL : List Char → List Char → Bool
  | [], _ => true
  | _ :: _, [] => false
  | a :: as, b :: bs => a = b && startsWithL as bs

/-- Python's substring test `pat in s`. -/
def hasSubstrL (pat : List Char) : List Char → Bool
  | [] => startsWithL pat []
  | b :: bs => startsWithL pat (b :: bs) || hasSubstrL pat bs

/-- The reserved marker substring `"intermediate_act_fn"`. -/
def marker : List Char := "intermediate_act_fn".toList

/-- The registration condition of the loop (source lines 484-485):
`not isinstance(module, nn.ModuleList) and not list(module.children()) and
"intermediate_act_fn" not in name and not isinstance(module, nn.LayerNorm)
and not isinstance(module, nn.Dropout) and not any(isinstance(module,
activation) for activation in EXCLUDED_ACTIVATIONS)`. -/
def qualifies (m : NetModule) : Bool :=
  !(m.kind = ModuleKind.moduleList) && m.numChildren = 0 &&
    !(hasSubstrL marker m.name) && !(m.kind = ModuleKind.layerNorm) &&
    !(m.kind = ModuleKind.dropout) &&
    !(EXCLUDED_ACTIVATIONS.any (fun a => m.kind = a))

/-- `register_hooks`: the modules that receive the activation hook,
in traversal order. -/
def register_hooks (modules : List NetModule) : List NetModule :=
  modules.filter qualifies

/-- A value that is neither negative nor NaN (i.e. `0.0` or `2^q`): the
restriction under which the tuple branch agrees with the single-tensor
branch. -/
def isNonneg : Val → Bool
  | .neg _ => false
  | .nanv => false
  | _ => true

/-! ### Helper lemmas: rounding -/

theorem rnd_le (x : ℚ) : (rnd x : ℚ) ≤ x + 1 / 2 := by
  unfold rnd
  have h1 := Int.floor_le x
  split_ifs with a b c <;> push_cast <;> linarith

theorem le_rnd (x : ℚ) : x - 1 / 2 ≤ (rnd x : ℚ) := by
  unfold rnd
  have h2 := Int.lt_floor_add_one x
  split_ifs with a b c <;> push_cast <;> linarith

theorem rnd_intCast (n : ℤ) : rnd (n : ℚ) = n := by
  unfold rnd
  rw [Int.floor_intCast]
  norm_num

theorem int_le_of_le_add_half (z m : ℤ) (h : (z : ℚ) ≤ (m : ℚ) + 1 / 2) :
    z ≤ m := by
  by_contra hc
  push_neg at hc
  have h2 : ((m + 1 : ℤ) : ℚ) ≤ (z : ℚ) := by exact_mod_cast hc
  push_cast at h2
  linarith

theorem int_le_of_sub_half_le (z m : ℤ) (h : (m : ℚ) - 1 / 2 ≤ (z : ℚ)) :
    m ≤ z := by
  by_contra hc
  push_neg at hc
  have h2 : ((z + 1 : ℤ) : ℚ) ≤ (m : ℚ) := by exact_mod_cast hc
  push_cast at h2
  linarith

theorem rnd_div_le (q : ℚ) (k : ℕ) (h : q ≤ 16) :
    (rnd (q * 2 ^ k) : ℚ) / 2 ^ k ≤ 16 := by
  have hs : (0 : ℚ) < 2 ^ k := by positivity
  rw [div_le_iff₀ hs]
  have h1 : (rnd (q * 2 ^ k) : ℚ) ≤ q * 2 ^ k + 1 / 2 := rnd_le _
  have h2 : q * 2 ^ k ≤ 16 * 2 ^ k := by nlinarith
  have h3 : rnd (q * 2 ^ k) ≤ 16 * 2 ^ k :=
    int_le_of_le_add_half _ _ (by push_cast; linarith)
  calc (rnd (q * 2 ^ k) : ℚ) ≤ ((16 * 2 ^ k : ℤ) : ℚ) := by exact_mod_cast h3
    _ = 16 * 2 ^ k := by push_cast; ring

theorem le_rnd_div (q : ℚ) (k : ℕ) (h : -16 ≤ q) :
    -16 ≤ (rnd (q * 2 ^ k) : ℚ) / 2 ^ k := by
  have hs : (0 : ℚ) < 2 ^ k := by positivity
  rw [le_div_iff₀ hs]
  have h1 : q * 2 ^ k - 1 / 2 ≤ (rnd (q * 2 ^ k) : ℚ) := le_rnd _
  have h2 : -16 * 2 ^ k ≤ q * 2 ^ k := by nlinarith
  have h3 : (-16) * 2 ^ k ≤ rnd (q * 2 ^ k) :=
    int_le_of_sub_half_le _ _ (by push_cast; linarith)
  calc (-16 : ℚ) * 2 ^ k = (((-16) * 2 ^ k : ℤ) : ℚ) := by push_cast; ring
    _ ≤ (rnd (q * 2 ^ k) : ℚ) := by exact_mod_cast h3

/-! ### Helper lemmas: gather / scatter / nonzero bookkeeping -/

theorem gather_range (l : List Val) : gather l (List.range l.length) = l := by
  unfold gather
  apply List.ext_getElem
  · simp
  · intro i h1 h2
    simp only [List.getElem_map, List.getElem_range]
    exact List.getD_eq_getElem l .zero h2

theorem nonzeroIdx_of_ne (l : List Val) (h : ∀ v ∈ l, v ≠ Val.zero) :
    nonzeroIdx l = List.range l.length := by
  unfold nonzeroIdx
  rw [List.filter_eq_self]
  intro i hi
  rw [List.mem_range] at hi
  have hmem : l.getD i .zero ∈ l := by
    rw [List.getD_eq_getElem l .zero hi]
    exact List.getElem_mem hi
  simpa using h _ hmem

theorem scatter_range' : ∀ (n s : ℕ) (l vals : List Val),
    l.length = s + n → vals.length = n →
    scatter l (List.range' s n) vals = l.take s ++ vals := by
  intro n
  induction n with
  | zero =>
    intro s l vals hl hv
    have hv0 : vals = [] := List.length_eq_zero.mp hv
    subst hv0
    simp only [List.range'_zero, scatter, List.append_nil]
    exact (List.take_of_length_le (by omega)).symm
  | succ n ih =>
    intro s l vals hl hv
    obtain ⟨v, vs, rfl⟩ : ∃ v vs, vals = v :: vs := by
      cases vals with
      | nil => simp at hv
      | cons v vs => exact ⟨v, vs, rfl⟩
    rw [List.range'_succ]
    have hstep : scatter l (s :: List.range' (s + 1) n) (v :: vs) =
        scatter (l.set s v) (List.range' (s + 1) n) vs := rfl
    rw [hstep, ih (s + 1) (l.set s v) vs (by simp [List.length_set]; omega)
      (by simpa using hv)]
    have hs : s < l.length := by omega
    rw [List.set_eq_take_cons_drop v hs, List.take_append_eq_append_take]
    have hlen : (l.take s).length = s := by
      simp [List.length_take]
      omega
    rw [List.take_of_length_le (by omega : (l.take s).length ≤ s + 1), hlen]
    simp

theorem scatter_range (l vals : List Val) (h : vals.length = l.length) :
    scatter l (List.range l.length) vals = vals := by
  rw [List.range_eq_range', scatter_range' l.length 0 l vals (by omega) h]
  simp

/-! ### Helper lemmas: the clamp step and the quantization body -/

theorem clampStep_ne_zero (v : Val) : clampStep v ≠ Val.zero := by
  cases v <;> simp [clampStep, vltz, vclampMag, vabs, vneg]

theorem clampStep_zero : clampStep .zero = .pos (-(threshold_mantissa : ℚ)) :=
  rfl

theorem clampStep_posv (q : ℚ) : clampStep (.pos q) = .pos (clampQ q) := rfl

theorem clampStep_negv (q : ℚ) : clampStep (.neg q) = .neg (clampQ q) := rfl

theorem clampQ_mem (q : ℚ) :
    -(threshold_mantissa : ℚ) ≤ clampQ q ∧ clampQ q ≤ (threshold_mantissa : ℚ) := by
  have hT : (threshold_mantissa : ℚ) = 16 := by
    norm_num [threshold_mantissa, num_bit_mantissa]
  unfold clampQ
  rw [hT]
  constructor
  · exact le_min (by norm_num) (le_max_left _ _)
  · exact min_le_left _ _

theorem quant_exponent_of_eq (L M : LogV) :
    quant_exponent_of L M = lround (tierScale (assignTier L M)) L := by
  unfold quant_exponent_of assignTier
  split_ifs <;> rfl

theorem tierScale_eq_pow (ti : Tier) :
    ∃ k : ℕ, tierScale ti = 2 ^ k := by
  cases ti
  · exact ⟨num_frac_low_prec, rfl⟩
  · exact ⟨num_frac_high_prec, rfl⟩
  · exact ⟨num_frac_highest_prec, rfl⟩

theorem quantBody_eq_map (l : List Val) (h : ∀ v ∈ l, v ≠ Val.zero) :
    quantBody l =
      l.map (fun v =>
        quantizedOf v (quant_exponent_of (logOfNode v)
          (lmaxRed (l.map logOfNode)))) := by
  unfold quantBody
  rw [nonzeroIdx_of_ne l h]
  simp only [gather_range]
  rcases eq_or_ne l [] with rfl | hne
  · simp
  · have hpos : 0 < l.length := List.length_pos.mpr hne
    rw [if_pos hpos, List.map_map]
    have hz := List.zip_map' id
      (fun v => quant_exponent_of (logOfNode v) (lmaxRed (l.map logOfNode))) l
    simp only [List.map_id] at hz
    rw [show (fun L => quant_exponent_of L (lmaxRed (l.map logOfNode))) ∘ logOfNode
        = fun v => quant_exponent_of (logOfNode v) (lmaxRed (l.map logOfNode)) from rfl,
      hz, List.map_map]
    apply scatter_range
    simp

theorem forward_single_eq (t : Tensor) (h : t.rank = 2 ∨ t.rank = 3) :
    forward_single t =
      ⟨t.rank, (t.data.map clampStep).map
        (fun v => quantizedOf v (quant_exponent_of (logOfNode v)
          (lmaxRed ((t.data.map clampStep).map logOfNode))))⟩ := by
  have hq := quantBody_eq_map (t.data.map clampStep) (by
    intro v hv
    rw [List.mem_map] at hv
    obtain ⟨w, _, rfl⟩ := hv
    exact clampStep_ne_zero w)
  unfold forward_single
  rcases h with h | h <;> simp [h, hq]

theorem getD_map_lt (l : List Val) (f : Val → Val) (i : ℕ)
    (hi : i < l.length) :
    (l.map f).getD i .zero = f (l.getD i .zero) := by
  rw [List.getD_eq_getElem _ _ (by simpa using hi), List.getElem_map,
    List.getD_eq_getElem _ _ hi]

theorem forward_single_getD (t : Tensor) (h : t.rank = 2 ∨ t.rank = 3)
    (i : ℕ) (hi : i < t.data.length) :
    (forward_single t).data.getD i .zero =
      quantizedOf (clampStep (t.data.getD i .zero))
        (quant_exponent_of (logOfNode (clampStep (t.data.getD i .zero)))
          (lmaxRed ((t.data.map clampStep).map logOfNode))) := by
  rw [forward_single_eq t h]
  dsimp only
  rw [getD_map_lt _ _ i (by simpa using hi), getD_map_lt _ _ i hi]

theorem lt_length_of_getD_ne (l : List Val) (i : ℕ)
    (h : l.getD i .zero ≠ Val.zero) : i < l.length := by
  by_contra hc
  push_neg at hc
  rw [List.getD_eq_default _ _ hc] at h
  exact h rfl

theorem thresh_q : (threshold_mantissa : ℚ) = 16 := by
  norm_num [threshold_mantissa, num_bit_mantissa]

/-- A nonzero, non-NaN element at flat index `i` of a rank-2/3 tensor is
quantized to the sign-preserving power of two whose exponent is the
clamped log-magnitude rounded at the scale of the tier `tierAt` assigns. -/
theorem forward_elem_spec (t : Tensor) (h : t.rank = 2 ∨ t.rank = 3)
    (i : ℕ) (p : ℚ) :
    (t.data.getD i .zero = Val.pos p →
      (forward_single t).data.getD i .zero =
        Val.pos ((rnd (clampQ p * tierScale (tierAt t i)) : ℚ) /
          tierScale (tierAt t i))) ∧
    (t.data.getD i .zero = Val.neg p →
      (forward_single t).data.getD i .zero =
        Val.neg ((rnd (clampQ p * tierScale (tierAt t i)) : ℚ) /
          tierScale (tierAt t i))) := by
  constructor
  · intro hz
    have hi : i < t.data.length :=
      lt_length_of_getD_ne t.data i (by rw [hz]; simp)
    have htier : tierAt t i =
        assignTier (.fin (clampQ p))
          (lmaxRed ((t.data.map clampStep).map logOfNode)) := by
      unfold tierAt
      rw [getD_map_lt _ _ i hi, hz, clampStep_posv]
      rfl
    rw [forward_single_getD t h i hi, hz, clampStep_posv]
    have hlog : logOfNode (Val.pos (clampQ p)) = .fin (clampQ p) := rfl
    rw [hlog, quant_exponent_of_eq, htier]
    rfl
  · intro hz
    have hi : i < t.data.length :=
      lt_length_of_getD_ne t.data i (by rw [hz]; simp)
    have htier : tierAt t i =
        assignTier (.fin (clampQ p))
          (lmaxRed ((t.data.map clampStep).map logOfNode)) := by
      unfold tierAt
      rw [getD_map_lt _ _ i hi, hz, clampStep_negv]
      rfl
    rw [forward_single_getD t h i hi, hz, clampStep_negv]
    have hlog : logOfNode (Val.neg (clampQ p)) = .fin (clampQ p) := rfl
    rw [hlog, quant_exponent_of_eq, htier]
    rfl

/-! ### Claim theorems -/

/-- C7: `quantize_backward` is the identity: for every upstream gradient
tensor `g` the result is `g` itself (`grad_output.clone()` is
value-identical), and it depends on nothing but `g` — the context (saved
forward input, tier data, bounds) does not participate: the result is the
same for every `ctx`. -/
theorem C7_backward_identity :
    ∀ (ctx : Option Tensor) (g : Tensor),
      backward ctx g = g ∧ ∀ ctx2 : Option Tensor, backward ctx g = backward ctx2 g :=
  fun _ _ => ⟨rfl, fun _ => rfl⟩

/-- C3 (code evaluated at the failing input): on a rank-1 tensor `[1.0]`
(and a rank-4 tensor), `forward` does NOT raise an unsupported-shape
error: it only prints `"Out of shape"` and returns the
clamped-but-unquantized tensor — here the input itself, since `1.0` is in
range.  This contradicts the claim's mandated explicit failure. -/
theorem C3_rank_silent_passthrough :
    forward_single ⟨1, [.pos 0]⟩ = ⟨1, [.pos 0]⟩ ∧
    forward_single ⟨4, [.pos 0]⟩ = ⟨4, [.pos 0]⟩ := by with_unfolding_all decide

/-- C10: the quantization configuration is exactly
`threshold_up = 2^16`, `threshold_down = 2^-16` (derived from the 5-bit
mantissa budget via `threshold_mantissa = 2^(5-1) = 16`), and the tier
scales are `Low = 2^2 = 4`, `High = 2^4 = 16`, `Highest = 2^6 = 64`, with
`num_frac_high_prec = num_frac_low_prec + 2` and
`num_frac_highest_prec = num_frac_high_prec + 2`.  (The constants are
plain immutable definitions built before hook registration; no operation
of the model takes them as mutable state.) -/
theorem C10_config_constants :
    num_bit_mantissa = 5 ∧
    threshold_mantissa = 2 ^ (num_bit_mantissa - 1) ∧
    threshold_up = 2 ^ (16 : ℕ) ∧
    threshold_down = ((2 : ℚ) ^ (16 : ℕ))⁻¹ ∧
    scale_low_prec = 4 ∧ scale_high_prec = 16 ∧ scale_highest_prec = 64 ∧
    num_frac_high_prec = num_frac_low_prec + 2 ∧
    num_frac_highest_prec = num_frac_high_prec + 2 ∧
    scale_low_prec = 2 ^ (2 : ℕ) ∧ scale_high_prec = 2 ^ (4 : ℕ) ∧
    scale_highest_prec = 2 ^ (6 : ℕ) ∧
    tierScale .Low = scale_low_prec ∧ tierScale .High = scale_high_prec ∧
    tierScale .Highest = scale_highest_prec := by
  norm_num [num_bit_mantissa, threshold_mantissa, threshold_up,
    threshold_down, scale_low_prec, scale_high_prec, scale_highest_prec,
    num_frac_low_prec, num_frac_high_prec, num_frac_highest_prec, tierScale]

/-- C2 counterexample: the claim "zero elements pass through unmodified
and an all-zero tensor is returned unchanged" is false at the rank-2
all-zero tensor `[[0.0]]`: the clamp
`torch.clamp(torch.abs(x), min=threshold_down, ...)` raises `0.0` to
`threshold_down = 2^-16` (represented `Val.pos (-16)`), every element of
the clamped tensor is then nonzero, and the output is `[[2^-16]]`, not
`[[0.0]]`. -/
theorem C2_counterexample :
    (forward_single ⟨2, [Val.zero]⟩).data = [Val.pos (-16)] ∧
    forward_single ⟨2, [Val.zero]⟩ ≠ ⟨2, [Val.zero]⟩ := by with_unfolding_all decide

/-- C2 amended: a zero element of a rank-2/3 tensor is NOT passed
through: the Range Clamp raises it to `+threshold_down = 2^-16`
(`Val.pos (-16)` in log2 representation), whose log-magnitude `-16` is
exactly representable at every tier scale, so the quantized output at
that position is exactly `2^-16`, positive — in particular an all-zero
tensor is not returned unchanged. -/
theorem C2_zero_to_threshold (t : Tensor) (h : t.rank = 2 ∨ t.rank = 3)
    (i : ℕ) (hi : i < t.data.length)
    (hz : t.data.getD i .zero = Val.zero) :
    (forward_single t).data.getD i .zero =
      Val.pos (-(threshold_mantissa : ℚ)) := by
  rw [forward_single_getD t h i hi, hz, clampStep_zero]
  have hlog : logOfNode (Val.pos (-(threshold_mantissa : ℚ))) =
      .fin (-(threshold_mantissa : ℚ)) := rfl
  rw [hlog, quant_exponent_of_eq]
  obtain ⟨k, hk⟩ := tierScale_eq_pow (assignTier (.fin (-(threshold_mantissa : ℚ)))
    (lmaxRed ((t.data.map clampStep).map logOfNode)))
  rw [hk]
  have hcast : (-(threshold_mantissa : ℚ)) * 2 ^ k = (((-16) * 2 ^ k : ℤ) : ℚ) := by
    rw [thresh_q]; push_cast; ring
  have hdiv : ((rnd ((-(threshold_mantissa : ℚ)) * 2 ^ k) : ℚ)) / 2 ^ k =
      -(threshold_mantissa : ℚ) := by
    rw [hcast, rnd_intCast, thresh_q]
    push_cast
    field_simp
  show Val.pos ((rnd ((-(threshold_mantissa : ℚ)) * 2 ^ k) : ℚ) / 2 ^ k) = _
  rw [hdiv]

/-- Witness for C2's amended theorem at the concrete all-zero tensor. -/
theorem C2_zero_to_threshold_witness :
    (forward_single ⟨2, [Val.zero]⟩).data.getD 0 .zero =
      Val.pos (-(threshold_mantissa : ℚ)) :=
  C2_zero_to_threshold ⟨2, [Val.zero]⟩ (Or.inl rfl) 0 (by with_unfolding_all decide) rfl

/-- C4: after the Range Clamp every element's magnitude lies in
`[threshold_down, threshold_up]` — in the log2 representation, the
exponent of the (always signed-nonzero) clamped value lies in
`[-threshold_mantissa, threshold_mantissa] = [-16, 16]`, i.e. the
magnitude `2^q` lies in `[2^-16, 2^16]` — and for every nonzero (non-NaN)
input element of a rank-2/3 tensor the fully quantized output magnitude
also has its exponent in `[-16, 16]`: the log-domain rounding never
leaves the representable range. -/
theorem C4_range_bound :
    (∀ v : Val, v ≠ Val.nanv →
      ∃ q : ℚ, logMag (clampStep v) = some q ∧
        -(threshold_mantissa : ℚ) ≤ q ∧ q ≤ (threshold_mantissa : ℚ)) ∧
    (∀ t : Tensor, (t.rank = 2 ∨ t.rank = 3) → ∀ (i : ℕ) (p : ℚ),
      (t.data.getD i .zero = Val.pos p ∨ t.data.getD i .zero = Val.neg p) →
      ∃ q : ℚ, logMag ((forward_single t).data.getD i .zero) = some q ∧
        -(threshold_mantissa : ℚ) ≤ q ∧ q ≤ (threshold_mantissa : ℚ)) := by
  constructor
  · intro v hv
    cases v with
    | zero =>
      refine ⟨-(threshold_mantissa : ℚ), rfl, le_refl _, ?_⟩
      rw [thresh_q]; norm_num
    | pos p => exact ⟨clampQ p, rfl, (clampQ_mem p).1, (clampQ_mem p).2⟩
    | neg p => exact ⟨clampQ p, rfl, (clampQ_mem p).1, (clampQ_mem p).2⟩
    | nanv => exact absurd rfl hv
  · intro t h i p hz
    obtain ⟨k, hk⟩ := tierScale_eq_pow (tierAt t i)
    have hlo : -16 ≤ clampQ p := by rw [← thresh_q]; exact (clampQ_mem p).1
    have hhi : clampQ p ≤ 16 := by rw [← thresh_q]; exact (clampQ_mem p).2
    have hbound :
        -(threshold_mantissa : ℚ) ≤
          (rnd (clampQ p * tierScale (tierAt t i)) : ℚ) / tierScale (tierAt t i) ∧
        (rnd (clampQ p * tierScale (tierAt t i)) : ℚ) / tierScale (tierAt t i) ≤
          (threshold_mantissa : ℚ) := by
      rw [thresh_q, hk]
      exact ⟨le_rnd_div _ k hlo, rnd_div_le _ k hhi⟩
    rcases hz with hz | hz
    · rw [(forward_elem_spec t h i p).1 hz]
      exact ⟨_, rfl, hbound.1, hbound.2⟩
    · rw [(forward_elem_spec t h i p).2 hz]
      exact ⟨_, rfl, hbound.1, hbound.2⟩

/-- Witness for C4 at `v = 2^20` (clamped to `2^16`) and at the rank-2
tensor `[[1.0]]`. -/
theorem C4_range_bound_witness :
    (∃ q : ℚ, logMag (clampStep (Val.pos 20)) = some q ∧
      -(threshold_mantissa : ℚ) ≤ q ∧ q ≤ (threshold_mantissa : ℚ)) ∧
    (∃ q : ℚ,
      logMag ((forward_single ⟨2, [Val.pos 0]⟩).data.getD 0 .zero) = some q ∧
      -(threshold_mantissa : ℚ) ≤ q ∧ q ≤ (threshold_mantissa : ℚ)) :=
  ⟨C4_range_bound.1 (Val.pos 20) (by with_unfolding_all decide),
   C4_range_bound.2 ⟨2, [Val.pos 0]⟩ (Or.inl rfl) 0 0 (Or.inl rfl)⟩

/-- C5: sign preservation — for every nonzero element of a rank-2/3
tensor, a positive input (`2^p`) produces a positive output and a
negative input (`-2^p`) produces a negative output, through both the
clamp and the log-domain quantization. -/
theorem C5_sign_preservation :
    ∀ t : Tensor, (t.rank = 2 ∨ t.rank = 3) → ∀ (i : ℕ) (p : ℚ),
      (t.data.getD i .zero = Val.pos p →
        ∃ r : ℚ, (forward_single t).data.getD i .zero = Val.pos r) ∧
      (t.data.getD i .zero = Val.neg p →
        ∃ r : ℚ, (forward_single t).data.getD i .zero = Val.neg r) :=
  fun t h i p =>
    ⟨fun hz => ⟨_, (forward_elem_spec t h i p).1 hz⟩,
     fun hz => ⟨_, (forward_elem_spec t h i p).2 hz⟩⟩

/-- Witness for C5 at the rank-2 tensor `[[1.0, -1.0]]`. -/
theorem C5_sign_preservation_witness :
    (∃ r : ℚ,
      (forward_single ⟨2, [Val.pos 0, Val.neg 0]⟩).data.getD 0 .zero =
        Val.pos r) ∧
    (∃ r : ℚ,
      (forward_single ⟨2, [Val.pos 0, Val.neg 0]⟩).data.getD 1 .zero =
        Val.neg r) :=
  ⟨(C5_sign_preservation ⟨2, [Val.pos 0, Val.neg 0]⟩ (Or.inl rfl) 0 0).1 rfl,
   (C5_sign_preservation ⟨2, [Val.pos 0, Val.neg 0]⟩ (Or.inl rfl) 1 0).2 rfl⟩

/-- C6: for every nonzero element of a rank-2/3 tensor the quantized
magnitude is a power of two whose log2 value is an exact multiple of
`1/scale` for the element's assigned tier: the output at index `i` is
`±2^e` with `e * tierScale (tierAt t i)` an integer. -/
theorem C6_power_of_two :
    ∀ t : Tensor, (t.rank = 2 ∨ t.rank = 3) → ∀ (i : ℕ) (p : ℚ),
      (t.data.getD i .zero = Val.pos p ∨ t.data.getD i .zero = Val.neg p) →
      ∃ e : ℚ, logMag ((forward_single t).data.getD i .zero) = some e ∧
        ∃ z : ℤ, e * tierScale (tierAt t i) = (z : ℚ) := by
  intro t h i p hz
  have hs : tierScale (tierAt t i) ≠ 0 := by
    obtain ⟨k, hk⟩ := tierScale_eq_pow (tierAt t i)
    rw [hk]
    positivity
  rcases hz with hz | hz
  · rw [(forward_elem_spec t h i p).1 hz]
    exact ⟨_, rfl, rnd (clampQ p * tierScale (tierAt t i)),
      div_mul_cancel₀ _ hs⟩
  · rw [(forward_elem_spec t h i p).2 hz]
    exact ⟨_, rfl, rnd (clampQ p * tierScale (tierAt t i)),
      div_mul_cancel₀ _ hs⟩

/-- Witness for C6 at the rank-2 tensor `[[1.0]]`. -/
theorem C6_power_of_two_witness :
    ∃ e : ℚ,
      logMag ((forward_single ⟨2, [Val.pos 0]⟩).data.getD 0 .zero) = some e ∧
      ∃ z : ℤ, e * tierScale (tierAt ⟨2, [Val.pos 0]⟩ 0) = (z : ℚ) :=
  C6_power_of_two ⟨2, [Val.pos 0]⟩ (Or.inl rfl) 0 0 (Or.inl rfl)

/-- C1: tier selection in the Precision Tier Selector (which, per the
source, operates on the clamped tensor, whose elements are all nonzero
with finite log2 magnitudes).  For finite `log_x = l` and `max_val = m`:
`Highest` iff `l > m - 3`; `High` iff `m - 5 < l ≤ m - 3`; `Low` iff
`l ≤ m - 5`; the quantized exponent is always `log_x` rounded at the
assigned tier's scale; and for the tensor `[[1.0, 2.0, 1024.0]]` (log2
magnitudes `[0, 1, 10]`, max `10`) the tiers are `[Low, Low, Highest]`:
`1024.0` gets `Highest` (finest scale, 64) and `2.0`, `1.0` get `Low`
(coarsest scale, 4). -/
theorem C1_tier_selection :
    (∀ l m : ℚ,
      (assignTier (.fin l) (.fin m) = .Highest ↔ m - 3 < l) ∧
      (assignTier (.fin l) (.fin m) = .High ↔ (m - 5 < l ∧ l ≤ m - 3)) ∧
      (assignTier (.fin l) (.fin m) = .Low ↔ l ≤ m - 5)) ∧
    (∀ L M : LogV,
      quant_exponent_of L M = lround (tierScale (assignTier L M)) L) ∧
    tiersOf ⟨2, [.pos 0, .pos 1, .pos 10]⟩ = [.Low, .Low, .Highest] ∧
    tierScale .Highest = scale_highest_prec ∧
    tierScale .Low = scale_low_prec ∧
    scale_highest_prec = 64 ∧ scale_low_prec = 4 := by
  refine ⟨?_, quant_exponent_of_eq, by with_unfolding_all decide, rfl, rfl,
    by norm_num [scale_highest_prec, num_frac_highest_prec,
      num_frac_high_prec, num_frac_low_prec],
    by norm_num [scale_low_prec, num_frac_low_prec]⟩
  intro l m
  have h5 : lgt (.fin l) (lsub (.fin m) 5) = decide (m - 5 < l) := rfl
  have h3 : lgt (.fin l) (lsub (.fin m) 3) = decide (m - 3 < l) := rfl
  unfold assignTier
  rw [h5, h3]
  by_cases hc5 : m - 5 < l <;> by_cases hc3 : m - 3 < l <;>
    simp [hc5, hc3] <;> linarith

/-- On a tensor whose elements are all nonnegative (and non-NaN), the
tuple-branch member transform coincides with the single-tensor
quantization body: after the clamp every element is strictly positive,
so the `log2` of the whole tensor has no NaN and its maximum equals the
maximum over the nonzero magnitudes. -/
theorem forward_member_eq_of_nonneg (l : List Val)
    (h : ∀ v ∈ l, isNonneg v = true) :
    forward_member l = quantBody (l.map clampStep) := by
  have hpos : ∀ w ∈ l.map clampStep, ∃ q, w = Val.pos q := by
    intro w hw
    rw [List.mem_map] at hw
    obtain ⟨v, hv, rfl⟩ := hw
    have hn := h v hv
    cases v with
    | zero => exact ⟨_, rfl⟩
    | pos q => exact ⟨_, rfl⟩
    | neg q => simp [isNonneg] at hn
    | nanv => simp [isNonneg] at hn
  rw [quantBody_eq_map _ (by
    intro v hv
    obtain ⟨q, rfl⟩ := hpos v hv
    simp)]
  have hlog : (l.map clampStep).map vlog2 = (l.map clampStep).map logOfNode := by
    apply List.map_congr_left
    intro v hv
    obtain ⟨q, rfl⟩ := hpos v hv
    rfl
  unfold forward_member
  simp only [hlog]
  apply List.map_congr_left
  intro v hv
  obtain ⟨q, rfl⟩ := hpos v hv
  rfl

/-- C8 counterexample: the claim that the tuple branch equals the
member-wise single-tensor quantization fails at the one-member tuple
`([[2^(1/8), -1.0]],)` (rank 2): in the tuple branch the tensor maximum
is `torch.max(torch.log2(t))`, and `log2` of the negative entry is NaN,
which the max propagates, so all threshold comparisons are false and the
positive element is rounded at the coarse Low scale to `1.0`; the
single-tensor branch computes the max over the nonzero magnitudes
(`1/8`), assigns `Highest`, and returns `2^(1/8)` unchanged. -/
theorem C8_counterexample :
    forward_tuple [⟨2, [Val.pos (1/8), Val.neg 0]⟩] ≠
      List.map forward_single [⟨2, [Val.pos (1/8), Val.neg 0]⟩] := by
  with_unfolding_all decide

/-- C8 amended: for a tuple of rank-2/3 tensors whose elements are all
nonnegative (no negative entries, no NaN), the tuple branch returns a
tuple of the same length whose i-th member equals the single-tensor
`forward` of the i-th input member.  (With a negative element present the
two branches disagree, because the tuple branch takes its maximum over
`log2` of the raw clamped tensor, where negative entries produce NaN.) -/
theorem C8_tuple_refines_single (ts : List Tensor)
    (h : ∀ t ∈ ts, (t.rank = 2 ∨ t.rank = 3) ∧
      ∀ v ∈ t.data, isNonneg v = true) :
    forward_tuple ts = ts.map forward_single := by
  unfold forward_tuple
  apply List.map_congr_left
  intro t ht
  obtain ⟨hr, hv⟩ := h t ht
  rw [forward_member_eq_of_nonneg t.data hv]
  rcases hr with h2 | h3
  · simp [forward_single, h2]
  · simp [forward_single, h3]

/-- Witness for C8's amended theorem at the one-member tuple
`([[1.0, 0.0]],)`. -/
theorem C8_tuple_refines_single_witness :
    forward_tuple [⟨2, [Val.pos 0, Val.zero]⟩] =
      List.map forward_single [⟨2, [Val.pos 0, Val.zero]⟩] :=
  C8_tuple_refines_single [⟨2, [Val.pos 0, Val.zero]⟩]
    (by with_unfolding_all decide)

/-- C9: `register_hooks` attaches the interceptor to a module iff it is a
leaf (no children), not a module-list container, its qualified name does
not contain the marker substring `"intermediate_act_fn"`, and it is not a
normalization, dropout, or excluded elementwise-activation module; in
particular a normalization module, a dropout module and a marker-named
module never qualify, while a plain leaf linear module does. -/
theorem C9_registration :
    (∀ (ms : List NetModule) (m : NetModule),
      m ∈ register_hooks ms ↔ m ∈ ms ∧
        (m.kind ≠ .moduleList ∧ m.numChildren = 0 ∧
         hasSubstrL marker m.name = false ∧ m.kind ≠ .layerNorm ∧
         m.kind ≠ .dropout ∧ m.kind ∉ EXCLUDED_ACTIVATIONS)) ∧
    qualifies ⟨"encoder.layer.0.norm".toList, .layerNorm, 0⟩ = false ∧
    qualifies ⟨"encoder.layer.0.dropout".toList, .dropout, 0⟩ = false ∧
    qualifies ⟨"encoder.layer.0.intermediate_act_fn".toList, .other, 0⟩ = false ∧
    qualifies ⟨"encoder.layer.0.dense".toList, .linear, 0⟩ = true := by
  refine ⟨?_, by with_unfolding_all decide, by with_unfolding_all decide,
    by with_unfolding_all decide, by with_unfolding_all decide⟩
  intro ms m
  rw [register_hooks, List.mem_filter, and_congr_right_iff]
  intro _
  unfold qualifies
  simp [Bool.and_eq_true, List.any_eq_true, not_or, and_assoc,
    Bool.not_eq_true', decide_eq_false_iff_not]
  intro _ _ _ _ _
  constructor
  · intro h6 hm
    exact h6 m.kind hm rfl
  · intro h6 x hx he
    exact h6 (he ▸ hx)
